import Mathlib

/-!
Shallow embedding of `hw/ip/otbn/util/shared/constants.py`: the
`ConstantContext` datatype (known-constant GPR tracking for OTBN static
analysis) and its transfer function `update_insn`.

A Python `Dict[str, int]` is embedded as an association list with the
dictionary operations used by the source: lookup (`d.get(k, None)`),
assignment (`d[k] = v`, which replaces the binding in place if the key is
present and appends otherwise), `d.pop(k, None)` and `d.update(d2)`.
The external collaborators (`Insn`, its operands, the rendering function
`op_val_to_str` and the information-flow evaluator) are embedded as an
abstract structure consumed exactly the way `constants.py` consumes them.
-/

namespace OtbnConstants

/-- A Python `Dict[str, int]` as an association list.  A list that arose
from an actual Python dict has pairwise-distinct keys (`DictKeysUnique`
below). -/
abbrev Dict := List (String × Int)

/-- `d.get(k, None)`: value of the first binding of `k`, if any. -/
def dget : Dict → String → Option Int
  | [], _ => none
  | (k', v) :: rest, k => if k' = k then some v else dget rest k

/-- `d[k] = v`: replace the first binding of `k` in place, or append a new
binding at the end. -/
def dinsert : Dict → String → Int → Dict
  | [], k, v => [(k, v)]
  | (k', v') :: rest, k, v =>
    if k' = k then (k, v) :: rest else (k', v') :: dinsert rest k v

/-- `d.pop(k, None)`: remove the binding of `k`, if present. -/
def derase (d : Dict) (k : String) : Dict :=
  d.filter (fun p => p.1 ≠ k)

/-- `d.update(d2)`: apply the bindings of `d2` to `d`, in order. -/
def dupdate (d : Dict) (d2 : Dict) : Dict :=
  d2.foldl (fun acc p => dinsert acc p.1 p.2) d

/-- The last binding of `k` in `d`: the value `k` has after `d` is applied
binding-by-binding to a dict (used to describe `dupdate`). -/
def dlookupLast : Dict → String → Option Int
  | [], _ => none
  | (k', v) :: rest, k =>
    match dlookupLast rest k with
    | some w => some w
    | none => if k' = k then some v else none

/-- Keys are pairwise distinct, as in an actual Python dict. -/
abbrev DictKeysUnique (d : Dict) : Prop :=
  (d.map Prod.fst).Nodup

theorem dget_dinsert_self (d : Dict) (k : String) (v : Int) :
    dget (dinsert d k v) k = some v := by
  induction d with
  | nil => simp [dinsert, dget]
  | cons p rest ih =>
    by_cases h : p.1 = k
    · simp [dinsert, h, dget]
    · simp [dinsert, h, dget, ih]

theorem dget_dinsert_ne (d : Dict) (k k' : String) (v : Int) (h : k' ≠ k) :
    dget (dinsert d k v) k' = dget d k' := by
  induction d with
  | nil => simp [dinsert, dget, Ne.symm h]
  | cons p rest ih =>
    simp only [dinsert]
    by_cases hp : p.1 = k
    · rw [if_pos hp]
      simp only [dget]
      rw [hp, if_neg (Ne.symm h), if_neg (Ne.symm h)]
    · rw [if_neg hp]
      simp only [dget, ih]

theorem dget_derase (d : Dict) (s k : String) :
    dget (derase d s) k = if k = s then none else dget d k := by
  induction d with
  | nil => simp [derase, dget]
  | cons p rest ih =>
    simp only [derase, ne_eq, decide_not] at ih ⊢
    rw [List.filter_cons]
    by_cases hp : p.1 = s
    · rw [if_neg (by simp [hp])]
      rw [ih]
      by_cases hk : k = s
      · simp [hk]
      · have hpk : ¬p.1 = k := fun h => hk (h ▸ hp)
        simp [hk, dget, hpk]
    · rw [if_pos (by simp [hp])]
      simp only [dget]
      by_cases hpk : p.1 = k
      · have hk : ¬k = s := fun h => hp (hpk.symm ▸ h)
        simp [hpk, hk]
      · simp [hpk, ih]

theorem dget_foldl_derase (l : List String) (d : Dict) (k : String) :
    dget (l.foldl derase d) k = if k ∈ l then none else dget d k := by
  induction l generalizing d with
  | nil => simp
  | cons s rest ih =>
    simp only [List.foldl, ih, dget_derase, List.mem_cons]
    by_cases h1 : k ∈ rest <;> by_cases h2 : k = s <;> simp [h1, h2]

theorem dget_dupdate (d : Dict) (d2 : Dict) (k : String) :
    dget (dupdate d d2) k =
      match dlookupLast d2 k with
      | some v => some v
      | none => dget d k := by
  induction d2 generalizing d with
  | nil => simp [dupdate, dlookupLast]
  | cons p rest ih =>
    show dget (dupdate (dinsert d p.1 p.2) rest) k = _
    rw [ih]
    show _ = (match (match dlookupLast rest k with
        | some w => some w
        | none => if p.1 = k then some p.2 else none) with
      | some v => some v
      | none => dget d k)
    cases dlookupLast rest k with
    | some w => rfl
    | none =>
      by_cases hp : p.1 = k
      · subst hp
        simp [dget_dinsert_self]
      · have hne : k ≠ p.1 := fun h => hp h.symm
        simp [hp, dget_dinsert_ne d p.1 k p.2 hne]

theorem dget_eq_none_of_not_mem_keys (d : Dict) (k : String)
    (h : k ∉ d.map Prod.fst) : dget d k = none := by
  induction d with
  | nil => rfl
  | cons p rest ih =>
    simp only [List.map, List.mem_cons] at h
    push_neg at h
    simp [dget, Ne.symm h.1, ih h.2]

theorem dget_some_iff_mem (d : Dict) (hd : DictKeysUnique d) (k : String) (v : Int) :
    dget d k = some v ↔ (k, v) ∈ d := by
  induction d with
  | nil => simp [dget]
  | cons p rest ih =>
    have hd' : DictKeysUnique rest := (List.nodup_cons.mp hd).2
    have hp : p.1 ∉ rest.map Prod.fst := (List.nodup_cons.mp hd).1
    by_cases h : p.1 = k
    · subst h
      simp only [dget, if_pos rfl, List.mem_cons]
      constructor
      · intro hv
        left
        cases p
        simp_all
      · intro hv
        rcases hv with hv | hv
        · cases p; simp_all
        · exact absurd (List.mem_map_of_mem Prod.fst hv) hp
    · simp only [dget, if_neg h, List.mem_cons, ih hd']
      constructor
      · intro hv; right; exact hv
      · intro hv
        rcases hv with hv | hv
        · cases hv; exact absurd rfl h
        · exact hv

theorem dictKeysUnique_filter (d : Dict) (p : String × Int → Bool)
    (hd : DictKeysUnique d) : DictKeysUnique (d.filter p) := by
  exact ((d.filter_sublist).map Prod.fst).nodup hd

theorem dget_filter_of_dget (d : Dict) (p : String × Int → Bool) (k : String) (v : Int)
    (hv : dget d k = some v) (hp : p (k, v) = true) :
    dget (d.filter p) k = some v := by
  induction d with
  | nil => simp [dget] at hv
  | cons q rest ih =>
    by_cases hq : q.1 = k
    · simp only [dget, if_pos hq] at hv
      cases hv
      cases q
      simp_all [List.filter, dget]
    · simp only [dget, if_neg hq] at hv
      simp only [List.filter]
      cases hpq : p q with
      | true => simp [dget, hq, ih hv]
      | false => exact ih hv

/-- Python `s.endswith(suf)`, stated on the underlying character lists so
that concrete instances evaluate inside the kernel. -/
def strEndsWith (s suf : String) : Bool :=
  suf.data.isSuffixOf s.data

/-- Python `s[:-n]` (for `0 < n ≤ len(s)`): drop the last `n` characters. -/
def strDropRight (s : String) (n : Nat) : String :=
  ⟨s.data.take (s.data.length - n)⟩

/-- An instruction operand, as consumed by `constants.py`: its name and,
for register-typed operands, the rendering `op.op_type.op_val_to_str(v, None)`
from the operand's concrete value to the canonical register-name string. -/
structure Operand where
  name : String
  render : Int → String

/-- The slice of `Insn` consumed by `constants.py`: the mnemonic, the
ordered operand list, `name_to_operand`, and the information-flow
evaluation `insn.iflow.evaluate(op_vals, values).all_sinks()`, taking the
operand values and the current known-constant values and returning the
written (sink) register names. -/
structure Insn where
  mnemonic : String
  operands : List Operand
  nameToOperand : String → Operand
  iflowSinks : (String → Int) → Dict → List String

/-- An operand-value assignment `op_vals : Dict[str, int]`; modelled as a
total function because the source assumes every operand name it looks up
is present. -/
abbrev OpVals := String → Int

/-- `get_op_val_str(insn, op_vals, opname)`. -/
def get_op_val_str (insn : Insn) (op_vals : OpVals) (opname : String) : String :=
  (insn.nameToOperand opname).render (op_vals opname)

/-- `ConstantContext`: represents known-constant GPRs. -/
structure ConstantContext where
  values : Dict

/-- The constructor's debug-time assertion `values.get('x0', None) == 0`. -/
def initOk (values : Dict) : Bool :=
  dget values "x0" == some 0

/-- `ConstantContext.__init__`, with the assertion embedded as a fallible
construction: an `InvariantViolation` is the assertion failing. -/
def ConstantContext.init (values : Dict) : Except String ConstantContext :=
  if initOk values then Except.ok ⟨values⟩ else Except.error "InvariantViolation"

/-- `ConstantContext.empty()`. -/
def ConstantContext.empty : ConstantContext :=
  ⟨[("x0", 0)]⟩

/-- `ConstantContext.set`: ignores writes to `x0`. -/
def ConstantContext.set (c : ConstantContext) (gpr : String) (value : Int) :
    ConstantContext :=
  if gpr = "x0" then c else ⟨dinsert c.values gpr value⟩

/-- `ConstantContext.get`. -/
def ConstantContext.get (c : ConstantContext) (gpr : String) : Option Int :=
  dget c.values gpr

/-- `ConstantContext.__contains__`. -/
def ConstantContext.containsReg (c : ConstantContext) (gpr : String) : Bool :=
  (dget c.values gpr).isSome

/-- `ConstantContext.copy()` (the dict copy is identity on a Lean value). -/
def ConstantContext.copy (c : ConstantContext) : ConstantContext :=
  ⟨c.values⟩

/-- `ConstantContext.intersect`: keep the bindings of `self` on which
`other` agrees. -/
def ConstantContext.intersect (c other : ConstantContext) : ConstantContext :=
  ⟨c.values.filter (fun p => dget other.values p.1 == some p.2)⟩

/-- The `_inc` scan of `update_insn`'s general case: for each operand in
order whose name ends in `_inc` and whose value is nonzero, if the base
register (the name with `_inc` stripped, rendered to its concrete name) is
a known constant in `vals`, bind it in the accumulator to that known value
plus one. -/
def incNewValues (vals : Dict) (insn : Insn) (op_vals : OpVals) :
    List Operand → Dict → Dict
  | [], acc => acc
  | op :: rest, acc =>
    if strEndsWith op.name "_inc" = true ∧ op_vals op.name ≠ 0 then
      match dget vals (get_op_val_str insn op_vals (strDropRight op.name 4)) with
      | some v =>
        incNewValues vals insn op_vals rest
          (dinsert acc (get_op_val_str insn op_vals (strDropRight op.name 4)) (v + 1))
      | none => incNewValues vals insn op_vals rest acc
    else
      incNewValues vals insn op_vals rest acc

/-- The `new_values` dict computed by step 1 of `update_insn` (the
special-cased mnemonics; `x << 12` on a Python unbounded int is
multiplication by `2 ^ 12`). -/
def newValues (c : ConstantContext) (insn : Insn) (op_vals : OpVals) : Dict :=
  if insn.mnemonic = "addi" then
    match dget c.values (get_op_val_str insn op_vals "grs1") with
    | some v => [(get_op_val_str insn op_vals "grd", v + op_vals "imm")]
    | none => []
  else if insn.mnemonic = "lui" then
    [(get_op_val_str insn op_vals "grd", op_vals "imm" * 2 ^ 12)]
  else
    incNewValues c.values insn op_vals insn.operands []

/-- `ConstantContext.update_insn`: compute `new_values`, evaluate the
information-flow sinks against the pre-update values, pop every sink, then
apply `new_values`.  The in-place mutation of the source is embedded as
returning the updated context. -/
def ConstantContext.update_insn (c : ConstantContext) (insn : Insn) (op_vals : OpVals) :
    ConstantContext :=
  let new_values := newValues c insn op_vals
  let after_sinks := (insn.iflowSinks op_vals c.values).foldl derase c.values
  ⟨dupdate after_sinks new_values⟩

/-- Characterization of `update_insn`: a register's post-state is its last
binding in `new_values` if it has one; otherwise it is unknown if the
register is an information-flow sink, and untouched if not. -/
theorem update_insn_get (c : ConstantContext) (insn : Insn) (op_vals : OpVals)
    (k : String) :
    (c.update_insn insn op_vals).get k =
      match dlookupLast (newValues c insn op_vals) k with
      | some v => some v
      | none =>
        if k ∈ insn.iflowSinks op_vals c.values then none else c.get k := by
  show dget (dupdate ((insn.iflowSinks op_vals c.values).foldl derase c.values)
      (newValues c insn op_vals)) k = _
  rw [dget_dupdate]
  cases dlookupLast (newValues c insn op_vals) k with
  | some v => rfl
  | none =>
    simp only
    rw [dget_foldl_derase]
    rfl

theorem keys_dinsert (d : Dict) (k : String) (v : Int) :
    (dinsert d k v).map Prod.fst =
      if k ∈ d.map Prod.fst then d.map Prod.fst else d.map Prod.fst ++ [k] := by
  induction d with
  | nil => simp [dinsert]
  | cons p rest ih =>
    simp only [dinsert]
    by_cases hp : p.1 = k
    · rw [if_pos hp]
      simp [List.mem_cons, hp]
    · rw [if_neg hp]
      simp only [List.map, ih, List.mem_cons, Ne.symm hp, false_or]
      by_cases hk : k ∈ rest.map Prod.fst <;> simp [hk]

theorem dictKeysUnique_dinsert (d : Dict) (k : String) (v : Int)
    (hd : DictKeysUnique d) : DictKeysUnique (dinsert d k v) := by
  unfold DictKeysUnique at hd ⊢
  rw [keys_dinsert]
  by_cases hk : k ∈ d.map Prod.fst
  · simpa [hk] using hd
  · simp [hk, List.nodup_append, hd, List.disjoint_singleton]

theorem dlookupLast_eq_dget (d : Dict) (hd : DictKeysUnique d) (k : String) :
    dlookupLast d k = dget d k := by
  induction d with
  | nil => rfl
  | cons p rest ih =>
    have h1 : p.1 ∉ rest.map Prod.fst := (List.nodup_cons.mp hd).1
    have h2 := ih (List.nodup_cons.mp hd).2
    simp only [dlookupLast, dget, h2]
    by_cases hp : p.1 = k
    · rw [dget_eq_none_of_not_mem_keys rest k (hp ▸ h1)]
    · cases hr : dget rest k <;> simp [hp, hr]

theorem incNewValues_preserve (vals : Dict) (insn : Insn) (op_vals : OpVals)
    (ops : List Operand) (acc : Dict) (n : String) (w : Int)
    (hn : dget vals n = some w) (hacc : dget acc n = some (w + 1)) :
    dget (incNewValues vals insn op_vals ops acc) n = some (w + 1) := by
  induction ops generalizing acc with
  | nil => simpa [incNewValues] using hacc
  | cons op rest ih =>
    simp only [incNewValues]
    by_cases hc : strEndsWith op.name "_inc" = true ∧ op_vals op.name ≠ 0
    · rw [if_pos hc]
      cases hv : dget vals (get_op_val_str insn op_vals (strDropRight op.name 4)) with
      | none => exact ih acc hacc
      | some v =>
        by_cases hmn : get_op_val_str insn op_vals (strDropRight op.name 4) = n
        · rw [hmn] at hv
          rw [hv] at hn
          cases hn
          exact ih _ (by rw [hmn, dget_dinsert_self])
        · exact ih _ (by rw [dget_dinsert_ne _ _ _ _ (fun h => hmn h.symm)]; exact hacc)
    · rw [if_neg hc]
      exact ih acc hacc

theorem incNewValues_mem (vals : Dict) (insn : Insn) (op_vals : OpVals)
    (ops : List Operand) (acc : Dict) (op : Operand)
    (hsuf : strEndsWith op.name "_inc" = true) (hnz : op_vals op.name ≠ 0)
    (n : String) (hn : get_op_val_str insn op_vals (strDropRight op.name 4) = n)
    (w : Int) (hw : dget vals n = some w) (hop : op ∈ ops) :
    dget (incNewValues vals insn op_vals ops acc) n = some (w + 1) := by
  revert hop
  induction ops generalizing acc with
  | nil => intro hop; cases hop
  | cons op' rest ih =>
    intro hop
    simp only [incNewValues]
    rcases List.mem_cons.mp hop with heq | hmem
    · subst heq
      rw [if_pos ⟨hsuf, hnz⟩, hn, hw]
      exact incNewValues_preserve vals insn op_vals rest _ n w hw
        (by rw [dget_dinsert_self])
    · by_cases hc : strEndsWith op'.name "_inc" = true ∧ op_vals op'.name ≠ 0
      · rw [if_pos hc]
        cases hv : dget vals (get_op_val_str insn op_vals (strDropRight op'.name 4)) with
        | some v => exact ih _ hmem
        | none => exact ih _ hmem
      · rw [if_neg hc]
        exact ih _ hmem

theorem dictKeysUnique_incNewValues (vals : Dict) (insn : Insn) (op_vals : OpVals)
    (ops : List Operand) (acc : Dict) (hacc : DictKeysUnique acc) :
    DictKeysUnique (incNewValues vals insn op_vals ops acc) := by
  induction ops generalizing acc with
  | nil => simpa [incNewValues] using hacc
  | cons op rest ih =>
    simp only [incNewValues]
    by_cases hc : strEndsWith op.name "_inc" = true ∧ op_vals op.name ≠ 0
    · rw [if_pos hc]
      cases hv : dget vals (get_op_val_str insn op_vals (strDropRight op.name 4)) with
      | some v => exact ih _ (dictKeysUnique_dinsert _ _ _ hacc)
      | none => exact ih _ hacc
    · rw [if_neg hc]
      exact ih _ hacc

theorem intersect_get_iff (a b : ConstantContext) (ha : DictKeysUnique a.values)
    (r : String) (v : Int) :
    (a.intersect b).get r = some v ↔ a.get r = some v ∧ b.get r = some v := by
  show dget (a.values.filter fun p => dget b.values p.1 == some p.2) r = some v ↔ _
  rw [dget_some_iff_mem _ (dictKeysUnique_filter _ _ ha) r v, List.mem_filter]
  show (r, v) ∈ a.values ∧ (dget b.values r == some v) = true ↔ _
  rw [← dget_some_iff_mem _ ha r v, beq_iff_eq]
  exact Iff.rfl

/-- C6: `a.intersect(b)` contains exactly the register/value pairs `(r, v)`
with `r` bound to `v` in `a` and to the same `v` in `b`; registers present
in only one input, or with different values, are absent from the result.
(Non-mutation of `a` and `b` is inherent in the embedding: `intersect`
builds a new context from a fresh dict.) -/
theorem intersect_content (a b : ConstantContext) (ha : DictKeysUnique a.values)
    (r : String) (v : Int) :
    (a.intersect b).get r = some v ↔ a.get r = some v ∧ b.get r = some v :=
  intersect_get_iff a b ha r v

theorem intersect_content_witness :
    ((ConstantContext.mk [("x0", 0), ("x1", 5), ("x2", 7)]).intersect
      (ConstantContext.mk [("x0", 0), ("x1", 5), ("x2", 8)])).get "x1" = some 5 ∧
    ¬((ConstantContext.mk [("x0", 0), ("x1", 5), ("x2", 7)]).intersect
      (ConstantContext.mk [("x0", 0), ("x1", 5), ("x2", 8)])).get "x2" = some 7 := by
  constructor
  · exact (intersect_content _ _ (by decide) "x1" 5).mpr (by decide)
  · intro h
    exact absurd ((intersect_content _ _ (by decide) "x2" 7).mp h).2 (by decide)

/-- C7: intersection is commutative on content and idempotent. -/
theorem intersect_comm_idem (a b : ConstantContext) (ha : DictKeysUnique a.values)
    (hb : DictKeysUnique b.values) :
    (∀ r v, ((a.intersect b).get r = some v ↔ (b.intersect a).get r = some v)) ∧
    (∀ r, (a.intersect a).get r = a.get r) := by
  constructor
  · intro r v
    rw [intersect_get_iff a b ha r v, intersect_get_iff b a hb r v, and_comm]
  · intro r
    cases hr : a.get r with
    | some v => exact (intersect_get_iff a a ha r v).mpr ⟨hr, hr⟩
    | none =>
      cases hi : (a.intersect a).get r with
      | none => rfl
      | some v =>
        have h1 := ((intersect_get_iff a a ha r v).mp hi).1
        rw [hr] at h1
        cases h1

theorem intersect_comm_idem_witness :
    (((ConstantContext.mk [("x0", 0), ("x1", 5)]).intersect
        (ConstantContext.mk [("x0", 0), ("x2", 6)])).get "x1" = some 5 ↔
      ((ConstantContext.mk [("x0", 0), ("x2", 6)]).intersect
        (ConstantContext.mk [("x0", 0), ("x1", 5)])).get "x1" = some 5) ∧
    ((ConstantContext.mk [("x0", 0), ("x1", 5)]).intersect
        (ConstantContext.mk [("x0", 0), ("x1", 5)])).get "x1" =
      (ConstantContext.mk [("x0", 0), ("x1", 5)]).get "x1" :=
  ⟨(intersect_comm_idem (ConstantContext.mk [("x0", 0), ("x1", 5)])
      (ConstantContext.mk [("x0", 0), ("x2", 6)]) (by decide) (by decide)).1 "x1" 5,
   (intersect_comm_idem (ConstantContext.mk [("x0", 0), ("x1", 5)])
      (ConstantContext.mk [("x0", 0), ("x2", 6)]) (by decide) (by decide)).2 "x1"⟩

/-- C8: `set("x0", v)` is a silent no-op (the mapping is unchanged and
`x0` still reads `0`), and for any register `r` different from `x0`, after
`set(r, v)` the register `r` reads `v`. -/
theorem set_x0_noop_and_set_get (c : ConstantContext) (v : Int) :
    c.set "x0" v = c ∧
    (c.get "x0" = some 0 → (c.set "x0" v).get "x0" = some 0) ∧
    (∀ r, r ≠ "x0" → ∀ w : Int, (c.set r w).get r = some w) := by
  refine ⟨by simp [ConstantContext.set], ?_, ?_⟩
  · intro h
    simpa [ConstantContext.set] using h
  · intro r hr w
    show ((if r = "x0" then c else ⟨dinsert c.values r w⟩) : ConstantContext).get r = some w
    rw [if_neg hr]
    exact dget_dinsert_self c.values r w

theorem set_x0_noop_and_set_get_witness :
    ConstantContext.empty.set "x0" 9 = ConstantContext.empty ∧
    (ConstantContext.empty.set "x0" 9).get "x0" = some 0 ∧
    (ConstantContext.empty.set "x1" 7).get "x1" = some 7 :=
  ⟨(set_x0_noop_and_set_get ConstantContext.empty 9).1,
   (set_x0_noop_and_set_get ConstantContext.empty 9).2.1 (by decide),
   (set_x0_noop_and_set_get ConstantContext.empty 7).2.2 "x1" (by decide) 7⟩

/-- C9: the `InvariantViolation` assertion fires exactly at
construct-from-mapping with `x0` missing or bound to a nonzero value; the
constructor calls hidden inside `empty`, `intersect` and `copy` always
satisfy the assertion when their inputs satisfy the `x0` invariant (the
remaining operations are total by construction). -/
theorem invariantViolation_only_at_init :
    (∀ values : Dict,
      ConstantContext.init values = Except.error "InvariantViolation" ↔
        ¬dget values "x0" = some 0) ∧
    initOk ConstantContext.empty.values = true ∧
    (∀ a b : ConstantContext, a.get "x0" = some 0 → b.get "x0" = some 0 →
      initOk (a.intersect b).values = true) ∧
    (∀ c : ConstantContext, c.get "x0" = some 0 → initOk c.copy.values = true) := by
  refine ⟨?_, by decide, ?_, ?_⟩
  · intro values
    have hiff : initOk values = true ↔ dget values "x0" = some 0 := by
      simp [initOk]
    unfold ConstantContext.init
    by_cases h : initOk values = true
    · rw [if_pos h]
      rw [hiff] at h
      simp [h]
    · rw [if_neg h]
      rw [hiff] at h
      simp [h]
  · intro a b ha hb
    have hb' : dget b.values "x0" = some 0 := hb
    have h0 : dget (a.intersect b).values "x0" = some 0 :=
      dget_filter_of_dget a.values _ "x0" 0 ha (by simp [hb'])
    simp [initOk, h0]
  · intro c hc
    have hc' : dget c.values "x0" = some 0 := hc
    simp [initOk, ConstantContext.copy, hc']

theorem invariantViolation_only_at_init_witness :
    ConstantContext.init [("x1", 1)] = Except.error "InvariantViolation" ∧
    initOk (ConstantContext.empty.intersect ConstantContext.empty).values = true :=
  ⟨(invariantViolation_only_at_init.1 [("x1", 1)]).mpr (by decide),
   invariantViolation_only_at_init.2.2.1 ConstantContext.empty ConstantContext.empty
     (by decide) (by decide)⟩

/-- C2: after `update_insn`, every register in the instruction's
information-flow sink set (evaluated from `op_vals` and the pre-update
values) that step 1 did not freshly bind is unknown, and a sink register
that step 1 did freshly bind reads the freshly computed value. -/
theorem update_insn_sink_invalidation (c : ConstantContext) (insn : Insn)
    (op_vals : OpVals) (s : String)
    (hs : s ∈ insn.iflowSinks op_vals c.values) :
    (dlookupLast (newValues c insn op_vals) s = none →
      (c.update_insn insn op_vals).get s = none) ∧
    (∀ v, dlookupLast (newValues c insn op_vals) s = some v →
      (c.update_insn insn op_vals).get s = some v) := by
  constructor
  · intro h
    rw [update_insn_get, h]
    simp [hs]
  · intro v h
    rw [update_insn_get, h]

/-- C3: for an `addi` instruction, when the rendered source register is
tracked with value `s`, the rendered destination becomes known with value
`s + imm`; when the source is untracked, step 1 produces no new fact and
the whole update is sink-set invalidation only. -/
theorem update_insn_addi (c : ConstantContext) (insn : Insn) (op_vals : OpVals)
    (hm : insn.mnemonic = "addi") :
    (∀ s, c.get (get_op_val_str insn op_vals "grs1") = some s →
      (c.update_insn insn op_vals).get (get_op_val_str insn op_vals "grd") =
        some (s + op_vals "imm")) ∧
    (c.get (get_op_val_str insn op_vals "grs1") = none →
      ∀ k, (c.update_insn insn op_vals).get k =
        if k ∈ insn.iflowSinks op_vals c.values then none else c.get k) := by
  constructor
  · intro s hs
    have hnv : newValues c insn op_vals =
        [(get_op_val_str insn op_vals "grd", s + op_vals "imm")] := by
      unfold newValues
      rw [if_pos hm,
        show dget c.values (get_op_val_str insn op_vals "grs1") = some s from hs]
    rw [update_insn_get, hnv]
    simp [dlookupLast]
  · intro hs k
    have hnv : newValues c insn op_vals = [] := by
      unfold newValues
      rw [if_pos hm,
        show dget c.values (get_op_val_str insn op_vals "grs1") = none from hs]
    rw [update_insn_get, hnv]
    simp [dlookupLast]

/-- C4: for a `lui` instruction, the rendered destination register becomes
known with value `imm << 12` (= `imm * 2 ^ 12`), unconditionally. -/
theorem update_insn_lui (c : ConstantContext) (insn : Insn) (op_vals : OpVals)
    (hm : insn.mnemonic = "lui") :
    (c.update_insn insn op_vals).get (get_op_val_str insn op_vals "grd") =
      some (op_vals "imm" * 2 ^ 12) := by
  have hnv : newValues c insn op_vals =
      [(get_op_val_str insn op_vals "grd", op_vals "imm" * 2 ^ 12)] := by
    unfold newValues
    rw [if_neg (by rw [hm]; decide), if_pos hm]
  rw [update_insn_get, hnv]
  simp [dlookupLast]

/-- C5: for an instruction that is neither `addi` nor `lui`, an operand
ending in `_inc` with a nonzero value increments its base register by one
when that register's rendered name is tracked; when several `_inc`
operands resolve to the same base register, each computed increment reads
the pre-instruction value, so the surviving (last-written) binding is that
value plus one. -/
theorem update_insn_inc (c : ConstantContext) (insn : Insn) (op_vals : OpVals)
    (hm1 : insn.mnemonic ≠ "addi") (hm2 : insn.mnemonic ≠ "lui")
    (op : Operand) (hop : op ∈ insn.operands)
    (hsuf : strEndsWith op.name "_inc" = true) (hnz : op_vals op.name ≠ 0)
    (w : Int)
    (hw : c.get (get_op_val_str insn op_vals (strDropRight op.name 4)) = some w) :
    (c.update_insn insn op_vals).get
      (get_op_val_str insn op_vals (strDropRight op.name 4)) = some (w + 1) := by
  have hnv : newValues c insn op_vals =
      incNewValues c.values insn op_vals insn.operands [] := by
    unfold newValues
    rw [if_neg hm1, if_neg hm2]
  have hu : DictKeysUnique (incNewValues c.values insn op_vals insn.operands []) :=
    dictKeysUnique_incNewValues c.values insn op_vals insn.operands [] (by decide)
  rw [update_insn_get, hnv, dlookupLast_eq_dget _ hu,
    incNewValues_mem c.values insn op_vals insn.operands [] op hsuf hnz _ rfl w hw hop]

/-- C10: a register that is neither an information-flow sink nor freshly
bound by step 1 keeps exactly its pre-instruction status across
`update_insn`. -/
theorem update_insn_frame (c : ConstantContext) (insn : Insn) (op_vals : OpVals)
    (k : String) (hks : k ∉ insn.iflowSinks op_vals c.values)
    (hkn : dlookupLast (newValues c insn op_vals) k = none) :
    (c.update_insn insn op_vals).get k = c.get k := by
  rw [update_insn_get, hkn]
  simp [hks]

/-- `op_val_to_str` for a GPR operand: value `i` renders as `x<i>`. -/
def renderGpr (v : Int) : String := "x" ++ toString v

/-- A concrete `addi` instruction descriptor; its information flow writes
the destination register. -/
def addiInsn : Insn where
  mnemonic := "addi"
  operands := [⟨"grd", renderGpr⟩, ⟨"grs1", renderGpr⟩, ⟨"imm", fun _ => ""⟩]
  nameToOperand := fun n => ⟨n, renderGpr⟩
  iflowSinks := fun opv _ => [renderGpr (opv "grd")]

/-- A concrete `lui` instruction descriptor. -/
def luiInsn : Insn where
  mnemonic := "lui"
  operands := [⟨"grd", renderGpr⟩, ⟨"imm", fun _ => ""⟩]
  nameToOperand := fun n => ⟨n, renderGpr⟩
  iflowSinks := fun opv _ => [renderGpr (opv "grd")]

/-- A concrete bignum load instruction with an incrementing GPR operand. -/
def bnLidInsn : Insn where
  mnemonic := "bn.lid"
  operands := [⟨"grd", renderGpr⟩, ⟨"grd_inc", fun _ => ""⟩, ⟨"offset", fun _ => ""⟩,
    ⟨"grs1", renderGpr⟩]
  nameToOperand := fun n => ⟨n, renderGpr⟩
  iflowSinks := fun opv _ => [renderGpr (opv "grd")]

/-- A concrete instruction outside the special-cased forms, with no `_inc`
operands; its information flow writes `grd`. -/
def genInsn : Insn where
  mnemonic := "bn.xor"
  operands := [⟨"grd", renderGpr⟩, ⟨"grs", renderGpr⟩]
  nameToOperand := fun n => ⟨n, renderGpr⟩
  iflowSinks := fun opv _ => [renderGpr (opv "grd")]

def addiVals : OpVals := fun n =>
  if n = "grs1" then 1 else if n = "grd" then 2 else if n = "imm" then 3 else 0

/-- Operand values of `addi x0, x5, 3`: the destination operand resolves
to the zero register. -/
def addiX0Vals : OpVals := fun n =>
  if n = "grs1" then 5 else if n = "imm" then 3 else 0

def luiVals : OpVals := fun n =>
  if n = "grd" then 3 else if n = "imm" then 2 else 0

def bnLidVals : OpVals := fun n =>
  if n = "grd" then 2 else if n = "grd_inc" then 1 else 0

def genVals : OpVals := fun n =>
  if n = "grd" then 3 else if n = "grs" then 7 else 0

/-- C1: refuted on the code.  `update_insn` of `addi x0, x5, 3` in a
context where `x5 = 5` rebinds `x0` to `8`: the `new_values` write path
does not go through `set` and is not guarded against the zero register, so
the `x0` invariant is violated (a subsequent `copy`/`intersect` would then
fail the constructor assertion, as the `initOk` conjunct shows). -/
theorem x0_invariant_broken_by_update_insn :
    ((ConstantContext.mk [("x0", 0), ("x5", 5)]).update_insn addiInsn addiX0Vals).get "x0" =
      some 8 ∧
    initOk
      ((ConstantContext.mk [("x0", 0), ("x5", 5)]).update_insn addiInsn addiX0Vals).values =
      false := by
  decide

theorem update_insn_sink_invalidation_witness :
    ((ConstantContext.mk [("x0", 0), ("x3", 7)]).update_insn genInsn genVals).get "x3" =
      none ∧
    ((ConstantContext.mk [("x0", 0), ("x1", 5)]).update_insn addiInsn addiVals).get "x2" =
      some 8 :=
  ⟨(update_insn_sink_invalidation _ genInsn genVals "x3" (by decide)).1 (by decide),
   (update_insn_sink_invalidation _ addiInsn addiVals "x2" (by decide)).2 8 (by decide)⟩

theorem update_insn_addi_witness :
    ((ConstantContext.mk [("x0", 0), ("x1", 5)]).update_insn addiInsn addiVals).get "x2" =
      some 8 :=
  (update_insn_addi _ addiInsn addiVals rfl).1 5 (by decide)

theorem update_insn_lui_witness :
    ((ConstantContext.mk [("x0", 0), ("x3", 77)]).update_insn luiInsn luiVals).get "x3" =
      some 8192 :=
  update_insn_lui _ luiInsn luiVals rfl

theorem update_insn_inc_witness :
    ((ConstantContext.mk [("x0", 0), ("x2", 10)]).update_insn bnLidInsn bnLidVals).get "x2" =
      some 11 :=
  update_insn_inc _ bnLidInsn bnLidVals (by decide) (by decide)
    ⟨"grd_inc", fun _ => ""⟩ (List.Mem.tail _ (List.Mem.head _)) (by decide) (by decide)
    10 (by decide)

theorem update_insn_frame_witness :
    ((ConstantContext.mk [("x0", 0), ("x7", 42)]).update_insn genInsn genVals).get "x7" =
      (ConstantContext.mk [("x0", 0), ("x7", 42)]).get "x7" :=
  update_insn_frame _ genInsn genVals "x7" (by decide) (by decide)

end OtbnConstants
